import Mathlib

/-!
Shallow embedding of the `pgesmd_self_access` package: the ESPI interval
parser `parse_espi_data` from `helpers.py`, and the token lifecycle and
fetch protocol of `SelfAccessApi` from `api.py`.

Machine conventions: Python integers are `Int`; `time.time()` is passed in
explicitly as `now`; HTTP traffic is modelled by the response each `requests`
call would observe; an uncaught Python exception is modelled by `none`
(parser) or `Except.error` (token grant).  Python computes
`value * pow(10, mp) * duration / 3600` in binary floating point; the
embedding uses the exact rational value, which agrees wherever the operands
are exactly representable (all integer inputs below 2^53, as in every
document considered here).
-/

/-- Round half to even (Python 3 `round`) of the fraction `p / q` for `q > 0`,
written with the floor quotient `f` and remainder `r = p - f * q ∈ [0, q)`. -/
def roundHalfEvenFrac (p q : Int) : Int :=
  let f := p / q
  let r := p - f * q
  if 2 * r = q then (if f % 2 = 0 then f else f + 1)
  else if 2 * r < q then f else f + 1

/-- helpers.py: `watt_hours = int(round(value * pow(10, mp) * duration / 3600))`,
the exact rational `value * 10^mp * duration / 3600` rounded half to even. -/
def wattHours (value mp duration : Int) : Int :=
  if 0 ≤ mp then roundHalfEvenFrac (value * 10 ^ mp.toNat * duration) 3600
  else roundHalfEvenFrac (value * duration) (3600 * 10 ^ (-mp).toNat)

/-- Python `int(x / 2)` for integer `x`: true division then truncation toward
zero, i.e. `Int.tdiv x 2`. -/
def pyHalf (x : Int) : Int := Int.tdiv x 2

/-- One raw `IntervalReading` element: `timePeriod/start`, `timePeriod/duration`
and the unscaled `value`. -/
structure RawReading where
  start : Int
  duration : Int
  value : Int
deriving DecidableEq, Repr

/-- One tuple `(start, duration, watt_hours)` yielded by the parser; also the
shape of the carried `previous` triple. -/
structure Reading where
  start : Int
  duration : Int
  watt_hours : Int
deriving DecidableEq, Repr

/-- The elements that the `iterparse` loop of `parse_espi_data` reacts to, in
document (end-tag) order: `powerOfTenMultiplier` declarations and
`IntervalBlock` elements with their ordered `IntervalReading` children. -/
inductive EspiItem where
  | mult (mp : Int)
  | block (readings : List RawReading)
deriving DecidableEq, Repr

/-- An ESPI document, reduced to the element stream the parser inspects. -/
abbrev EspiDoc := List EspiItem

/-- Body of the inner loop of `parse_espi_data` for one `IntervalReading`:
from the carried `previous` triple and the current multiplier `mp`, the
optional yielded reading and the updated `previous`.

Branches in source order: `start == previous[0]` skips (clocks back);
`not start == previous[0] + duration` shifts the reading to
`previous[0] + duration` and averages `int((previous[2] + watt_hours) / 2)`
(clocks forward); otherwise the reading is yielded unchanged. -/
def readingStep (previous : Reading) (mp : Int) (r : RawReading) :
    Option Reading × Reading :=
  let wh := wattHours r.value mp r.duration
  if r.start = previous.start then
    (none, previous)
  else if ¬(r.start = previous.start + r.duration) then
    let s := previous.start + r.duration
    let w := pyHalf (previous.watt_hours + wh)
    (some ⟨s, r.duration, w⟩, ⟨s, r.duration, w⟩)
  else
    (some ⟨r.start, r.duration, wh⟩, ⟨r.start, r.duration, wh⟩)

/-- The readings yielded for the `IntervalReading` children of one
`IntervalBlock`, threading `previous` through `readingStep`. -/
def blockSteps (previous : Reading) (mp : Int) :
    List RawReading → List Reading × Reading
  | [] => ([], previous)
  | r :: rs =>
    let (out, p) := readingStep previous mp r
    let (outs, pf) := blockSteps p mp rs
    (out.toList ++ outs, pf)

/-- The `iterparse` walk of `parse_espi_data`: a `powerOfTenMultiplier`
end-tag rebinds `mp`, an `IntervalBlock` end-tag emits its readings.  `none`
models the uncaught `UnboundLocalError` raised when a reading must be scaled
before any `powerOfTenMultiplier` has been seen. -/
def itemsSteps (previous : Reading) (mp : Option Int) :
    EspiDoc → Option (List Reading)
  | [] => some []
  | .mult m :: rest => itemsSteps previous (some m) rest
  | .block rs :: rest =>
    match mp, rs with
    | _, [] => itemsSteps previous mp rest
    | none, _ :: _ => none
    | some m, _ :: _ =>
      let (outs, p) := blockSteps previous m rs
      (itemsSteps p (some m) rest).map (outs ++ ·)

/-- The seeding scan `for child in root.iter(timePeriod): ...; break`: the
`(start, duration)` of the first `timePeriod` element in document order, or
`none` when the document has no `timePeriod` at all. -/
def firstTimePeriod : EspiDoc → Option (Int × Int)
  | [] => none
  | .mult _ :: rest => firstTimePeriod rest
  | .block [] :: rest => firstTimePeriod rest
  | .block (r :: _) :: _ => some (r.start, r.duration)

/-- helpers.py `parse_espi_data`, with the generator collected into a list.
The seed is `previous = (first_start - duration, 0, 0)`.  `none` models an
uncaught exception while iterating: either no `timePeriod` exists (the seed
line raises `UnboundLocalError`), or a reading is scaled before any
multiplier declaration. -/
def parse_espi_data (doc : EspiDoc) : Option (List Reading) :=
  match firstTimePeriod doc with
  | none => none
  | some (fs, d) => itemsSteps ⟨fs - d, 0, 0⟩ none doc

/-- The adjacency relation of the spec's contiguity invariant, as stated:
each next reading starts at the previous reading's `start` plus the
PREVIOUS reading's `duration`. -/
def specContiguous : List Reading → Bool
  | a :: b :: rest => (b.start == a.start + a.duration) && specContiguous (b :: rest)
  | _ => true

/-- The adjacency relation the code actually enforces: each next reading
starts at the previous reading's `start` plus the NEXT reading's own
`duration`. -/
def codeContiguous : List Reading → Bool
  | a :: b :: rest => (b.start == a.start + b.duration) && codeContiguous (b :: rest)
  | _ => true

/-- Relative form of `codeContiguous`: every reading of the list follows its
predecessor (seeded by `p`) at `start + duration-of-the-new-reading`. -/
def codeChained (p : Reading) : List Reading → Bool
  | [] => true
  | r :: rs => (r.start == p.start + r.duration) && codeChained r rs

/-- Last element of a list of readings, with default `d` for the empty list. -/
def lastOr : List Reading → Reading → Reading
  | [], d => d
  | a :: t, _ => lastOr t a

/-- A contiguous run of raw readings of common `duration` `D` starting at
`s`, one per listed raw value. -/
def buildRun (s D : Int) : List Int → List RawReading
  | [] => []
  | v :: vs => ⟨s, D, v⟩ :: buildRun (s + D) D vs

/-- The scaled, unchanged readings that a contiguous run yields. -/
def normalOut (s D mp : Int) : List Int → List Reading
  | [] => []
  | v :: vs => ⟨s, D, wattHours v mp D⟩ :: normalOut (s + D) D mp vs

/-- The shift-and-average output the parser produces once it has fallen one
interval behind the raw stream: each raw reading is re-timed to
`previous.start + duration` and its value replaced by
`int((previous.watt_hours + scaled value) / 2)`. -/
def cascade (p : Reading) (mp D : Int) : List RawReading → List Reading
  | [] => []
  | r :: rs =>
    let nr : Reading := ⟨p.start + D, D, pyHalf (p.watt_hours + wattHours r.value mp r.duration)⟩
    nr :: cascade nr mp D rs

/-- Pairing of raw readings after a one-interval gap with the yielded
readings: each is yielded at its raw `start - D` (never at its raw `start`),
with `watt_hours = int((previously yielded watt_hours + own scaled
watt_hours) / 2)`, and is never the raw reading unchanged. -/
def shiftedAveraged (p : Reading) (mp D : Int) :
    List RawReading → List Reading → Prop
  | [], [] => True
  | r :: rs, o :: os =>
      o.start = r.start - D ∧ ¬(o.start = r.start) ∧ o.duration = D ∧
      o.watt_hours = pyHalf (p.watt_hours + wattHours r.value mp r.duration) ∧
      ¬(o = ⟨r.start, r.duration, wattHours r.value mp r.duration⟩) ∧
      shiftedAveraged o mp D rs os
  | _, _ => False

/-- Test for the presence of at least one `IntervalBlock` element in the
document, empty or not. -/
def hasBlock : EspiDoc → Bool
  | [] => false
  | .mult _ :: rest => hasBlock rest
  | .block _ :: _ => true

/-- Mutable token state of `SelfAccessApi`: `self.access_token` and
`self.access_token_exp`.  The constructor sets `(None, 0)`. -/
structure ApiState where
  access_token : Option String
  access_token_exp : Int
deriving DecidableEq, Repr

/-- State right after `SelfAccessApi.__init__`: no token, expiry 0. -/
def initialApiState : ApiState := ⟨none, 0⟩

/-- api.py `need_token`: `True` iff `time.time() > self.access_token_exp - 5`. -/
def need_token (st : ApiState) (now : Int) : Bool :=
  now > st.access_token_exp - 5

/-- The token endpoint's response body as `get_token` sees it: either not
JSON at all, or a JSON object with the two fields `get_token` reads
(`client_access_token`, `expires_in`), each possibly absent. -/
inductive TokenBody where
  | unparseable
  | fields (client_access_token : Option String) (expires_in : Option Int)
deriving DecidableEq, Repr

/-- Outcome of one `get_token` call that did not raise: the state after the
call, the returned value (`some token` or `None`), and whether an error log
entry was emitted. -/
structure TokenResult where
  state : ApiState
  result : Option String
  logged : Bool
deriving DecidableEq, Repr

/-- api.py `get_token` on the response `(status, body)`.  On 200 the body is
parsed; `content["client_access_token"]` is assigned to `self.access_token`
BEFORE `content["expires_in"]` is read, and only `KeyError` is caught, so a
missing `client_access_token` leaves the state intact, a missing
`expires_in` leaves a half-updated state, and a non-JSON body raises an
uncaught `json.JSONDecodeError` (`Except.error`).  Any non-200 status logs
and returns `None` without touching the state. -/
def get_token (st : ApiState) (now : Int) (status : Nat) (body : TokenBody) :
    Except String TokenResult :=
  if status = 200 then
    match body with
    | .unparseable => .error "JSONDecodeError"
    | .fields none _ => .ok ⟨st, none, true⟩
    | .fields (some tok) none => .ok ⟨{ st with access_token := some tok }, none, true⟩
    | .fields (some tok) (some e) => .ok ⟨⟨some tok, now + e⟩, some tok, false⟩
  else .ok ⟨st, none, true⟩

/-- One HTTP response as seen by `requests.get`. -/
structure HttpResponse where
  status : Nat
  text : String
deriving DecidableEq, Repr

/-- Python truthiness of `self.get_token()`'s return value: `None` and the
empty string are falsy. -/
def pyTruthy : Option String → Bool
  | none => false
  | some s => !(s == "")

/-- api.py `get_espi_data` with `_retried=True`: 200 returns the body, 403
returns `None` (second `elif`), anything else falls through to the final log
and returns `None`.  The second component counts the GETs of the resource
URI made by this activation. -/
def get_espi_data_retried (resp : HttpResponse) : Option String × Nat :=
  if resp.status = 200 then (some resp.text, 1)
  else if resp.status = 403 then (none, 1)
  else (none, 1)

/-- api.py `get_espi_data` (top-level call, `_retried=False`): `resp1` is the
response to the first GET, `resp2` the response the retry would observe,
`refreshResult` what `self.get_token()` returns inside the 403 branch.  The
source calls `self.get_espi_data(resource_uri, _retried=True)` WITHOUT
`return`, so the retry's value (`.1` of `get_espi_data_retried`) is
discarded and control falls through to the final log and the implicit
`return None`.  The second component counts GETs of the resource URI. -/
def get_espi_data (resp1 resp2 : HttpResponse) (refreshResult : Option String) :
    Option String × Nat :=
  if resp1.status = 200 then (some resp1.text, 1)
  else if resp1.status = 403 then
    if pyTruthy refreshResult then
      let inner := get_espi_data_retried resp2
      (none, 1 + inner.2)
    else (none, 1)
  else (none, 1)

/-- Each `readingStep` either skips and keeps `previous`, or emits a reading
that becomes the new `previous` and starts at `previous.start` plus its own
duration. -/
theorem readingStep_cases (prev : Reading) (mp : Int) (r : RawReading) :
    readingStep prev mp r = (none, prev) ∨
    ∃ nr, readingStep prev mp r = (some nr, nr) ∧ nr.start = prev.start + nr.duration := by
  by_cases h1 : r.start = prev.start
  · left
    simp only [readingStep]
    rw [if_pos h1]
  · by_cases h2 : r.start = prev.start + r.duration
    · right
      refine ⟨⟨r.start, r.duration, wattHours r.value mp r.duration⟩, ?_, h2⟩
      simp only [readingStep]
      rw [if_neg h1, if_neg (not_not_intro h2)]
    · right
      refine ⟨⟨prev.start + r.duration, r.duration,
        pyHalf (prev.watt_hours + wattHours r.value mp r.duration)⟩, ?_, rfl⟩
      simp only [readingStep]
      rw [if_neg h1, if_pos h2]

theorem lastOr_cons (t : List Reading) (a d : Reading) : lastOr (a :: t) d = lastOr t a := rfl

/-- The output of one block is chained from the incoming `previous`, and the
outgoing `previous` is the last emitted reading (or the incoming one if the
block emitted nothing). -/
theorem blockSteps_chained (rs : List RawReading) (prev : Reading) (mp : Int) :
    codeChained prev (blockSteps prev mp rs).1 = true ∧
    (blockSteps prev mp rs).2 = lastOr (blockSteps prev mp rs).1 prev := by
  induction rs generalizing prev with
  | nil => simp [blockSteps, codeChained, lastOr]
  | cons r rs ih =>
    rcases readingStep_cases prev mp r with h | ⟨nr, h, hs⟩
    · have hb : blockSteps prev mp (r :: rs) = blockSteps prev mp rs := by
        simp [blockSteps, h]
      rw [hb]; exact ih prev
    · have hb : blockSteps prev mp (r :: rs) =
          (nr :: (blockSteps nr mp rs).1, (blockSteps nr mp rs).2) := by
        simp [blockSteps, h]
      rw [hb]
      refine ⟨?_, ?_⟩
      · rw [codeChained]; simp [hs, (ih nr).1]
      · rw [lastOr_cons]; exact (ih nr).2

theorem codeChained_append (l₁ l₂ : List Reading) (p : Reading) :
    codeChained p (l₁ ++ l₂) = (codeChained p l₁ && codeChained (lastOr l₁ p) l₂) := by
  induction l₁ generalizing p with
  | nil => simp [codeChained, lastOr]
  | cons a l ih =>
    rw [List.cons_append, codeChained, codeChained, ih a, lastOr_cons, Bool.and_assoc]

/-- Any successful `itemsSteps` walk produces output chained from the seed. -/
theorem itemsSteps_chained (items : EspiDoc) (prev : Reading) (mp : Option Int)
    (out : List Reading) (h : itemsSteps prev mp items = some out) :
    codeChained prev out = true := by
  induction items generalizing prev mp out with
  | nil =>
    simp [itemsSteps] at h
    subst h
    rfl
  | cons item rest ih =>
    match item with
    | .mult m =>
      rw [itemsSteps] at h
      exact ih prev (some m) out h
    | .block [] =>
      rw [itemsSteps] at h
      exact ih prev mp out h
    | .block (r :: rs) =>
      match mp with
      | none => rw [itemsSteps] at h; cases h
      | some m =>
        rw [itemsSteps] at h
        rcases hbs : blockSteps prev m (r :: rs) with ⟨outs, p⟩
        rw [hbs] at h
        cases ho : itemsSteps p (some m) rest with
        | none => simp [ho] at h
        | some tail =>
          simp [ho] at h
          rw [← h, codeChained_append]
          have hc := blockSteps_chained (r :: rs) prev m
          rw [hbs] at hc
          simp only at hc
          rw [Bool.and_eq_true]
          exact ⟨hc.1, hc.2 ▸ ih p (some m) tail ho⟩

theorem codeChained_cons_contiguous (l : List Reading) (a : Reading)
    (h : codeChained a l = true) : codeContiguous (a :: l) = true := by
  induction l generalizing a with
  | nil => rfl
  | cons b rest ih =>
    rw [codeChained] at h
    simp at h
    rw [codeContiguous]
    simp [h.1, ih b h.2]

theorem codeChained_contiguous (l : List Reading) (p : Reading)
    (h : codeChained p l = true) : codeContiguous l = true := by
  cases l with
  | nil => rfl
  | cons a t =>
    rw [codeChained] at h
    simp at h
    exact codeChained_cons_contiguous t a h.2

theorem blockSteps_append (l₁ l₂ : List RawReading) (prev : Reading) (mp : Int) :
    blockSteps prev mp (l₁ ++ l₂) =
      ((blockSteps prev mp l₁).1 ++ (blockSteps (blockSteps prev mp l₁).2 mp l₂).1,
       (blockSteps (blockSteps prev mp l₁).2 mp l₂).2) := by
  induction l₁ generalizing prev with
  | nil => simp [blockSteps]
  | cons r rs ih =>
    rw [List.cons_append]
    rcases hr : readingStep prev mp r with ⟨o, p⟩
    simp only [blockSteps, hr]
    rw [ih p]
    simp [List.append_assoc]

/-- A run that is contiguous with the incoming `previous` is yielded
unchanged (scaled only), and `previous` ends at its last reading. -/
theorem blockSteps_normal (vs : List Int) (S D mp : Int) (p : Reading)
    (hD : ¬D = 0) (hp : p.start = S - D) :
    blockSteps p mp (buildRun S D vs) =
      (normalOut S D mp vs, lastOr (normalOut S D mp vs) p) := by
  induction vs generalizing S p with
  | nil => simp [buildRun, blockSteps, normalOut, lastOr]
  | cons v vs ih =>
    have h1 : ¬((⟨S, D, v⟩ : RawReading).start = p.start) := by
      simp only [hp]; intro hc; omega
    have h2 : (⟨S, D, v⟩ : RawReading).start = p.start + (⟨S, D, v⟩ : RawReading).duration := by
      simp only [hp]; ring
    have hstep : readingStep p mp ⟨S, D, v⟩ =
        (some ⟨S, D, wattHours v mp D⟩, ⟨S, D, wattHours v mp D⟩) := by
      simp only [readingStep]
      rw [if_neg h1, if_neg (not_not_intro h2)]
    rw [buildRun, normalOut]
    simp only [blockSteps, hstep]
    rw [ih (S + D) ⟨S, D, wattHours v mp D⟩ (by simp), lastOr_cons]
    simp

/-- The last reading of a nonempty `normalOut` run: it starts at
`S + (n - 1) * D` and has duration `D`. -/
theorem normalOut_lastOr (vs : List Int) (S D mp : Int) (p : Reading) (h : ¬vs = []) :
    (lastOr (normalOut S D mp vs) p).start = S + ((vs.length : Int) - 1) * D ∧
    (lastOr (normalOut S D mp vs) p).duration = D := by
  induction vs generalizing S p with
  | nil => exact absurd rfl h
  | cons v vs ih =>
    cases vs with
    | nil =>
      simp [normalOut, lastOr]
    | cons w ws =>
      rw [normalOut, lastOr_cons]
      have hih := ih (S + D) ⟨S, D, wattHours v mp D⟩ (by simp)
      refine ⟨?_, hih.2⟩
      rw [hih.1]
      simp only [List.length_cons]
      push_cast
      ring

/-- Once `previous` sits two intervals behind the next raw reading, every
further contiguous raw reading is shifted back and averaged: the block
yields exactly the `cascade` stream. -/
theorem blockSteps_cascade (ws : List Int) (S D mp : Int) (p : Reading)
    (hD : ¬D = 0) (hp : p.start = S - 2 * D) :
    blockSteps p mp (buildRun S D ws) =
      (cascade p mp D (buildRun S D ws),
       lastOr (cascade p mp D (buildRun S D ws)) p) := by
  induction ws generalizing S p with
  | nil => simp [buildRun, blockSteps, cascade, lastOr]
  | cons v ws ih =>
    have h1 : ¬((⟨S, D, v⟩ : RawReading).start = p.start) := by
      simp only [hp]; intro hc; omega
    have h2 : ¬((⟨S, D, v⟩ : RawReading).start = p.start + (⟨S, D, v⟩ : RawReading).duration) := by
      simp only [hp]; intro hc; omega
    have hstep : readingStep p mp ⟨S, D, v⟩ =
        (some ⟨p.start + D, D, pyHalf (p.watt_hours + wattHours v mp D)⟩,
         ⟨p.start + D, D, pyHalf (p.watt_hours + wattHours v mp D)⟩) := by
      simp only [readingStep]
      rw [if_neg h1, if_pos h2]
    rw [buildRun]
    simp only [blockSteps, hstep, cascade]
    rw [ih (S + D) ⟨p.start + D, D, pyHalf (p.watt_hours + wattHours v mp D)⟩ (by simp [hp]; ring),
      lastOr_cons]
    simp

/-- The cascade output satisfies the shifted-averaged pairing. -/
theorem shiftedAveraged_cascade (ws : List Int) (S D mp : Int) (p : Reading)
    (hD : ¬D = 0) (hp : p.start = S - 2 * D) :
    shiftedAveraged p mp D (buildRun S D ws) (cascade p mp D (buildRun S D ws)) := by
  induction ws generalizing S p with
  | nil => rw [buildRun, cascade]; trivial
  | cons v ws ih =>
    rw [buildRun]
    refine ⟨by dsimp only; omega, by intro hc; dsimp only at hc; omega, rfl, rfl, ?_, ?_⟩
    · intro hc
      have h5 := congrArg Reading.start hc
      dsimp only at h5
      omega
    · exact ih (S + D) ⟨p.start + D, D, pyHalf (p.watt_hours + wattHours v mp D)⟩
        (by show p.start + D = S + D - 2 * D; omega)

theorem firstTimePeriod_gapDoc (mp S D v : Int) (vs : List Int) (l₂ : List RawReading) :
    firstTimePeriod [.mult mp, .block (buildRun S D (v :: vs) ++ l₂)] = some (S, D) := by
  rw [buildRun, List.cons_append, firstTimePeriod, firstTimePeriod]

/-- Parsing a document with one leading multiplier and one block made of a
contiguous run `vs` from `S` followed, after a one-interval gap, by a
contiguous run `ws`: the output is the unchanged scaled run followed by the
cascade of shifted averages. -/
theorem parse_gapDoc (mp S D : Int) (vs ws : List Int) (hD : ¬D = 0) (hvs : ¬vs = []) :
    parse_espi_data [.mult mp,
        .block (buildRun S D vs ++ buildRun (S + ((vs.length : Int) + 1) * D) D ws)] =
      some (normalOut S D mp vs ++
        cascade (lastOr (normalOut S D mp vs) ⟨S - D, 0, 0⟩) mp D
          (buildRun (S + ((vs.length : Int) + 1) * D) D ws)) := by
  obtain ⟨v, vs', rfl⟩ : ∃ v vs', vs = v :: vs' := by
    cases vs with
    | nil => exact absurd rfl hvs
    | cons a b => exact ⟨a, b, rfl⟩
  have hpre := blockSteps_normal (v :: vs') S D mp ⟨S - D, 0, 0⟩ hD (by simp)
  have hlast := normalOut_lastOr (v :: vs') S D mp ⟨S - D, 0, 0⟩ (by simp)
  have hplstart : (lastOr (normalOut S D mp (v :: vs')) ⟨S - D, 0, 0⟩).start =
      (S + (((v :: vs').length : Int) + 1) * D) - 2 * D := by
    rw [hlast.1]
    ring
  have hpost := blockSteps_cascade ws (S + (((v :: vs').length : Int) + 1) * D) D mp
    (lastOr (normalOut S D mp (v :: vs')) ⟨S - D, 0, 0⟩) hD hplstart
  have happ := blockSteps_append (buildRun S D (v :: vs'))
    (buildRun (S + (((v :: vs').length : Int) + 1) * D) D ws) ⟨S - D, 0, 0⟩ mp
  rw [hpre] at happ
  dsimp only at happ
  rw [hpost] at happ
  dsimp only at happ
  have hitems : itemsSteps ⟨S - D, 0, 0⟩ none
      [.mult mp, .block (buildRun S D (v :: vs') ++
        buildRun (S + (((v :: vs').length : Int) + 1) * D) D ws)] =
      some (normalOut S D mp (v :: vs') ++
        cascade (lastOr (normalOut S D mp (v :: vs')) ⟨S - D, 0, 0⟩) mp D
          (buildRun (S + (((v :: vs').length : Int) + 1) * D) D ws)) := by
    rw [itemsSteps]
    rw [buildRun, List.cons_append] at happ ⊢
    rw [itemsSteps, happ]
    simp [itemsSteps]
  rw [parse_espi_data, firstTimePeriod_gapDoc]
  exact hitems

theorem get_espi_data_retried_snd (r : HttpResponse) : (get_espi_data_retried r).2 = 1 := by
  unfold get_espi_data_retried
  split_ifs <;> rfl

/-- C4 (counterexample).  The claim says a document with zero `IntervalBlock`
elements yields the empty sequence without failing.  On the empty document
the seeding scan finds no `timePeriod`, so `first_start` and `duration` are
unbound and iterating the generator raises `UnboundLocalError` (modelled as
`none`): the parser fails instead of yielding the empty sequence. -/
theorem parse_espi_data_empty_doc :
    parse_espi_data [] = none ∧ ¬(parse_espi_data [] = some []) := by decide

/-- C4 (amended).  A document with zero `IntervalBlock` elements never
yields a reading: iterating the parser raises an uncaught
`UnboundLocalError` (no `timePeriod` exists to seed `previous`), modelled as
`parse_espi_data = none`, rather than terminating normally with an empty
sequence. -/
theorem parse_espi_data_no_blocks (doc : EspiDoc) (h : hasBlock doc = false) :
    parse_espi_data doc = none := by
  have hft : firstTimePeriod doc = none := by
    induction doc with
    | nil => rfl
    | cons item rest ih =>
      match item with
      | .mult m =>
        rw [hasBlock] at h
        rw [firstTimePeriod]
        exact ih h
      | .block rs =>
        rw [hasBlock] at h
        exact Bool.noConfusion h
  rw [parse_espi_data, hft]

/-- C4 (witness): the one-multiplier document has no block and parses to
`none`. -/
theorem parse_espi_data_no_blocks_witness :
    hasBlock [.mult 3] = false ∧ parse_espi_data [.mult 3] = none :=
  ⟨by decide, parse_espi_data_no_blocks [.mult 3] (by decide)⟩

/-- C3 (code bug, evaluated).  First GET answers 403, the token refresh
succeeds, and the retried GET answers 200 with the document: the retried
activation does return the body (second conjunct), but the source drops it
(`self.get_espi_data(resource_uri, _retried=True)` lacks `return`), so the
call returns `None` after two GETs instead of the document. -/
theorem get_espi_data_discards_retry :
    get_espi_data ⟨403, "denied"⟩ ⟨200, "<espi/>"⟩ (some "tok") = (none, 2) ∧
    get_espi_data_retried ⟨200, "<espi/>"⟩ = (some "<espi/>", 1) := ⟨rfl, rfl⟩

/-- C8.  `get_espi_data` performs at most two GETs of the resource URI; a
403 on the first attempt with a truthy refreshed token makes exactly one
retry (two GETs total); and a 403 on the retry as well is terminal: the
call returns `None` after exactly two GETs, with no third attempt. -/
theorem get_espi_data_at_most_two_gets (r1 r2 : HttpResponse) (refresh : Option String) :
    (get_espi_data r1 r2 refresh).2 ≤ 2 ∧
    (r1.status = 403 → pyTruthy refresh = true → (get_espi_data r1 r2 refresh).2 = 2) ∧
    (r1.status = 403 → r2.status = 403 → pyTruthy refresh = true →
      get_espi_data r1 r2 refresh = (none, 2)) := by
  have hsnd := get_espi_data_retried_snd r2
  by_cases h1 : r1.status = 200
  · refine ⟨?_, fun h403 _ => absurd h403 (by omega), fun h403 _ _ => absurd h403 (by omega)⟩
    simp [get_espi_data, h1]
  · by_cases h2 : r1.status = 403
    · by_cases h3 : pyTruthy refresh = true
      · refine ⟨?_, fun _ _ => ?_, fun _ _ _ => ?_⟩ <;>
          simp [get_espi_data, h1, h2, h3, hsnd]
      · refine ⟨?_, fun _ htr => absurd htr h3, fun _ _ htr => absurd htr h3⟩
        simp [get_espi_data, h1, h2, h3]
    · refine ⟨?_, fun h403 _ => absurd h403 h2, fun h403 _ _ => absurd h403 h2⟩
      simp [get_espi_data, h1, h2]

/-- C8 (witness): two 403s with a successful refresh give `None` after
exactly two GETs. -/
theorem get_espi_data_at_most_two_gets_witness :
    (403 = 403) ∧ pyTruthy (some "tok2") = true ∧
    get_espi_data ⟨403, "no"⟩ ⟨403, "still no"⟩ (some "tok2") = (none, 2) :=
  ⟨rfl, by decide,
    (get_espi_data_at_most_two_gets ⟨403, "no"⟩ ⟨403, "still no"⟩ (some "tok2")).2.2
      rfl rfl (by decide)⟩

/-- C6 (counterexample).  The claim says `need_token` is true exactly when
`now >= expires_at - 5`.  At `now = 0`, `expires_at = 5` the boundary holds
(`0 >= 5 - 5`), yet the code's strict `time.time() > access_token_exp - 5`
returns `False`. -/
theorem need_token_boundary :
    need_token ⟨none, 5⟩ 0 = false ∧ (0 : Int) ≥ 5 - 5 := by decide

/-- C6 (amended).  `need_token` is true exactly when `now` is STRICTLY past
`expires_at - 5` (the code compares with `>`, not `>=`); the claim's two
concrete cases hold (`expires_at = now + 10` gives false, `expires_at =
now + 3` gives true), and with no token ever obtained (`expires_at = 0`)
it is true for any nonnegative clock. -/
theorem need_token_strict (tok : Option String) (e now : Int) :
    (need_token ⟨tok, e⟩ now = true ↔ now > e - 5) ∧
    need_token ⟨tok, now + 10⟩ now = false ∧
    need_token ⟨tok, now + 3⟩ now = true ∧
    (0 ≤ now → need_token initialApiState now = true) := by
  refine ⟨?_, ?_, ?_, fun h => ?_⟩ <;> simp [need_token, initialApiState] <;> omega

/-- C6 (witness): at `now = 3` with no token ever obtained, a refresh is
needed. -/
theorem need_token_strict_witness :
    (0 : Int) ≤ 3 ∧ need_token initialApiState 3 = true :=
  ⟨by decide, (need_token_strict none 7 3).2.2.2 (by decide)⟩

/-- C5 (counterexample).  A 200 response whose JSON body contains
`client_access_token` but no `expires_in` assigns the new token to
`self.access_token` BEFORE the `KeyError` on `expires_in` is raised and
caught: the stored token changes while the expiry stays, so the state is
partially updated on a failed call. -/
theorem get_token_partial_update :
    get_token ⟨some "old", 100⟩ 50 200 (.fields (some "new") none) =
      .ok ⟨⟨some "new", 100⟩, none, true⟩ ∧
    ¬((⟨some "new", 100⟩ : ApiState) = ⟨some "old", 100⟩) := ⟨rfl, by decide⟩

/-- C5 (amended).  A non-200 status, or a 200 body missing
`client_access_token`, leaves the stored token and expiry unchanged; but a
200 body that has `client_access_token` while missing `expires_in`
overwrites the stored token and leaves only the expiry unchanged (a partial
update). -/
theorem get_token_failure_preserves_state (st : ApiState) (now : Int) (status : Nat)
    (body : TokenBody) :
    (¬status = 200 → get_token st now status body = .ok ⟨st, none, true⟩) ∧
    (∀ e, get_token st now 200 (.fields none e) = .ok ⟨st, none, true⟩) ∧
    (∀ tok, get_token st now 200 (.fields (some tok) none) =
      .ok ⟨⟨some tok, st.access_token_exp⟩, none, true⟩) := by
  refine ⟨fun h => ?_, fun e => rfl, fun tok => rfl⟩
  unfold get_token
  rw [if_neg h]

/-- C5 (witness): a 404 from the token endpoint leaves the state intact. -/
theorem get_token_failure_preserves_state_witness :
    ¬(404 = 200) ∧
    get_token ⟨some "a", 7⟩ 0 404 .unparseable = .ok ⟨⟨some "a", 7⟩, none, true⟩ :=
  ⟨by decide,
    (get_token_failure_preserves_state ⟨some "a", 7⟩ 0 404 .unparseable).1 (by decide)⟩

/-- C7 (counterexample).  The claim says every 200 response with an
unparseable body yields `None` plus a log entry.  `get_token` only catches
`KeyError`; `json.loads` on a non-JSON body raises `json.JSONDecodeError`,
which propagates to the caller (modelled as `Except.error`), so the call
does not return `None`. -/
theorem get_token_unparseable_raises :
    get_token initialApiState 0 200 .unparseable = .error "JSONDecodeError" ∧
    ¬(get_token initialApiState 0 200 .unparseable = .ok ⟨initialApiState, none, true⟩) := by
  refine ⟨rfl, fun hc => ?_⟩
  rw [show get_token initialApiState 0 200 .unparseable =
    .error "JSONDecodeError" from rfl] at hc
  exact Except.noConfusion hc

/-- C7 (amended).  A 200 response whose body parses but misses an expected
field returns `None` with an error log entry and no exception — whether the
missing field is `client_access_token` (state untouched) or `expires_in`
(token overwritten, expiry untouched).  An UNPARSEABLE 200 body instead
raises an uncaught JSON decode error. -/
theorem get_token_missing_field_no_raise (st : ApiState) (now : Int) (e : Option Int)
    (tok : String) :
    get_token st now 200 (.fields none e) = .ok ⟨st, none, true⟩ ∧
    get_token st now 200 (.fields (some tok) none) =
      .ok ⟨⟨some tok, st.access_token_exp⟩, none, true⟩ := ⟨rfl, rfl⟩

/-- C1 (counterexample).  With raw readings `A = (7200, 3600, wh 10)` and
`B = (14400, 3600, wh 20)` (a one-interval gap), the parser yields exactly
TWO readings — `A` unchanged, then the synthesized `(10800, 3600, 15)` —
and not the claimed three: `B` is consumed by the synthesis and never
yielded unchanged. -/
theorem parse_espi_data_gap_swallows_B :
    parse_espi_data [.mult 0, .block [⟨7200, 3600, 10⟩, ⟨14400, 3600, 20⟩]] =
      some [⟨7200, 3600, 10⟩, ⟨10800, 3600, 15⟩] ∧
    ¬(parse_espi_data [.mult 0, .block [⟨7200, 3600, 10⟩, ⟨14400, 3600, 20⟩]] =
      some [⟨7200, 3600, 10⟩, ⟨10800, 3600, 15⟩, ⟨14400, 3600, 20⟩]) := by decide

/-- C1 (amended).  For raw readings `A = (S, D, wh 10)` then
`B = (S + 2D, D, wh 20)` after multiplier scaling, the parser yields
exactly two readings: `A` unchanged, then the synthesized
`(S + D, D, 15)`; `B` itself is consumed by the synthesis and is not
yielded at its raw position. -/
theorem parse_espi_data_spring_forward_pair (S D mp vA vB : Int)
    (hD : ¬D = 0) (hA : wattHours vA mp D = 10) (hB : wattHours vB mp D = 20) :
    parse_espi_data [.mult mp, .block [⟨S, D, vA⟩, ⟨S + 2 * D, D, vB⟩]] =
      some [⟨S, D, 10⟩, ⟨S + D, D, 15⟩] := by
  have h := parse_gapDoc mp S D [vA] [vB] hD (by simp)
  have harg : S + ((([vA] : List Int).length : Int) + 1) * D = S + 2 * D := by
    simp
  rw [harg] at h
  simp only [buildRun, normalOut, cascade, lastOr, List.cons_append, List.nil_append] at h
  rw [hA, hB] at h
  have h15 : pyHalf (10 + 20) = 15 := by decide
  rw [h15] at h
  exact h

/-- C1 (witness): the amended statement at `S = 7200`, `D = 3600`,
multiplier 0, raw values 10 and 20. -/
theorem parse_espi_data_spring_forward_pair_witness :
    ¬((3600 : Int) = 0) ∧ wattHours 10 0 3600 = 10 ∧ wattHours 20 0 3600 = 20 ∧
    parse_espi_data [.mult 0, .block [⟨7200, 3600, 10⟩, ⟨7200 + 2 * 3600, 3600, 20⟩]] =
      some [⟨7200, 3600, 10⟩, ⟨7200 + 3600, 3600, 15⟩] :=
  ⟨by decide, by decide, by decide,
    parse_espi_data_spring_forward_pair 7200 3600 0 10 20 (by decide) (by decide) (by decide)⟩

/-- C2 (counterexample).  A document with mixed durations defeats the
claimed relation: after `(0, 3600, 1)`, the raw reading `(1800, 1800, 2)`
satisfies the code's test `start == previous.start + duration` with its OWN
duration and is yielded unchanged, yet `1800 ≠ 0 + 3600`, so
`readings[1].start ≠ readings[0].start + readings[0].duration`. -/
theorem parse_espi_data_mixed_duration :
    parse_espi_data [.mult 0, .block [⟨0, 3600, 1⟩, ⟨1800, 1800, 2⟩]] =
      some [⟨0, 3600, 1⟩, ⟨1800, 1800, 1⟩] ∧
    specContiguous [⟨0, 3600, 1⟩, ⟨1800, 1800, 1⟩] = false := by decide

/-- C2 (amended).  For every parsed document, adjacent yielded readings
satisfy `readings[i+1].start == readings[i].start + readings[i+1].duration`
(the NEXT reading's own duration); when all readings share one duration
this coincides with the claimed invariant. -/
theorem parse_espi_data_contiguity (doc : EspiDoc) (out : List Reading)
    (h : parse_espi_data doc = some out) : codeContiguous out = true := by
  rw [parse_espi_data] at h
  cases hf : firstTimePeriod doc with
  | none => rw [hf] at h; exact Option.noConfusion h
  | some sd =>
    obtain ⟨fs, d⟩ := sd
    rw [hf] at h
    exact codeChained_contiguous out ⟨fs - d, 0, 0⟩ (itemsSteps_chained doc _ none out h)

/-- C2 (witness): a contiguous uniform-duration document parses and its
output satisfies the enforced adjacency relation. -/
theorem parse_espi_data_contiguity_witness :
    parse_espi_data [.mult 0, .block [⟨0, 3600, 5⟩, ⟨3600, 3600, 6⟩]] =
      some [⟨0, 3600, 5⟩, ⟨3600, 3600, 6⟩] ∧
    codeContiguous [⟨0, 3600, 5⟩, ⟨3600, 3600, 6⟩] = true :=
  ⟨by decide,
    parse_espi_data_contiguity [.mult 0, .block [⟨0, 3600, 5⟩, ⟨3600, 3600, 6⟩]]
      [⟨0, 3600, 5⟩, ⟨3600, 3600, 6⟩] (by decide)⟩

/-- C9 (counterexample).  Raw readings `(0,3600,1)`, `(7200,3600,2)`,
`(7200,3600,4)`: the last two share `start = 7200`, but the second raw
reading is shifted by the gap branch to `3600`, so when the third arrives
`previous.start = 3600 ≠ 7200` and it is NOT skipped: a reading built from
the duplicate (`watt_hours 4`) is yielded at `7200`, and three readings
come out of the pair plus predecessor instead of two. -/
theorem parse_espi_data_dup_not_skipped :
    parse_espi_data [.mult 0, .block [⟨0, 3600, 1⟩, ⟨7200, 3600, 2⟩, ⟨7200, 3600, 4⟩]] =
      some [⟨0, 3600, 1⟩, ⟨3600, 3600, 1⟩, ⟨7200, 3600, 4⟩] ∧
    (⟨7200, 3600, 4⟩ : Reading) ∈
      [(⟨0, 3600, 1⟩ : Reading), ⟨3600, 3600, 1⟩, ⟨7200, 3600, 4⟩] := by decide

/-- C9 (amended).  A raw reading is skipped (nothing yielded, `previous`
unchanged) exactly when its `start` equals the CARRIED previous reading's
`start`.  When the first of two consecutive identical-start raw readings is
yielded unchanged (it was contiguous with `previous`), the second is
skipped entirely, `previous` keeps the first reading, and exactly one
reading is yielded for that start — the first one.  If the first was
itself time-shifted by a preceding gap, the duplicate is not skipped. -/
theorem blockSteps_fall_back_dedup (prev : Reading) (mp : Int) (r rd : RawReading)
    (hcont : r.start = prev.start + r.duration) (hne : ¬r.start = prev.start)
    (hdup : rd.start = r.start) :
    blockSteps prev mp [r, rd] =
      ([⟨r.start, r.duration, wattHours r.value mp r.duration⟩],
       ⟨r.start, r.duration, wattHours r.value mp r.duration⟩) := by
  have hstep1 : readingStep prev mp r =
      (some ⟨r.start, r.duration, wattHours r.value mp r.duration⟩,
       ⟨r.start, r.duration, wattHours r.value mp r.duration⟩) := by
    simp only [readingStep]
    rw [if_neg hne, if_neg (not_not_intro hcont)]
  have hstep2 : readingStep ⟨r.start, r.duration, wattHours r.value mp r.duration⟩ mp rd =
      (none, ⟨r.start, r.duration, wattHours r.value mp r.duration⟩) := by
    simp only [readingStep]
    rw [if_pos hdup]
  simp [blockSteps, hstep1, hstep2]

/-- C9 (witness): previous `(0, 3600, 5)`, then `(3600, 3600, 7)` and the
duplicate `(3600, 3600, 9)`: only the first is yielded and `previous` stays
at it. -/
theorem blockSteps_fall_back_dedup_witness :
    ((3600 : Int) = 0 + 3600) ∧ ¬((3600 : Int) = 0) ∧ ((3600 : Int) = 3600) ∧
    blockSteps ⟨0, 3600, 5⟩ 0 [⟨3600, 3600, 7⟩, ⟨3600, 3600, 9⟩] =
      ([⟨3600, 3600, 7⟩], ⟨3600, 3600, 7⟩) := by
  refine ⟨by decide, by decide, by decide, ?_⟩
  have h := blockSteps_fall_back_dedup ⟨0, 3600, 5⟩ 0 ⟨3600, 3600, 7⟩ ⟨3600, 3600, 9⟩
    (by decide) (by decide) (by decide)
  rw [h]
  decide

/-- C10.  For a document of uniform duration `D` with a contiguous run
`vs` from `S`, one missing interval, then a contiguous run `ws`: the run
`vs` is yielded unchanged, and every raw reading from the gap onward is
yielded at its raw `start - D` — never at its raw start — with
`watt_hours = int((previously yielded watt_hours + own scaled watt_hours)
/ 2)` truncated toward zero, so no raw reading at or after the gap is ever
yielded unchanged. -/
theorem parse_espi_data_cascade_after_gap (mp S D : Int) (vs ws : List Int)
    (hD : ¬D = 0) (hvs : ¬vs = []) :
    parse_espi_data [.mult mp,
        .block (buildRun S D vs ++ buildRun (S + ((vs.length : Int) + 1) * D) D ws)] =
      some (normalOut S D mp vs ++
        cascade (lastOr (normalOut S D mp vs) ⟨S - D, 0, 0⟩) mp D
          (buildRun (S + ((vs.length : Int) + 1) * D) D ws)) ∧
    shiftedAveraged (lastOr (normalOut S D mp vs) ⟨S - D, 0, 0⟩) mp D
      (buildRun (S + ((vs.length : Int) + 1) * D) D ws)
      (cascade (lastOr (normalOut S D mp vs) ⟨S - D, 0, 0⟩) mp D
        (buildRun (S + ((vs.length : Int) + 1) * D) D ws)) := by
  refine ⟨parse_gapDoc mp S D vs ws hD hvs, ?_⟩
  have hlast := normalOut_lastOr vs S D mp ⟨S - D, 0, 0⟩ hvs
  exact shiftedAveraged_cascade ws (S + ((vs.length : Int) + 1) * D) D mp
    (lastOr (normalOut S D mp vs) ⟨S - D, 0, 0⟩) hD (by rw [hlast.1]; ring)

/-- C10 (witness): run `[1, 2]` from 0 at duration 3600, gap, then `[3]`. -/
theorem parse_espi_data_cascade_after_gap_witness :
    ¬((3600 : Int) = 0) ∧ ¬(([1, 2] : List Int) = []) ∧
    (parse_espi_data [.mult 0,
        .block (buildRun 0 3600 [1, 2] ++
          buildRun (0 + ((([1, 2] : List Int).length : Int) + 1) * 3600) 3600 [3])] =
      some (normalOut 0 3600 0 [1, 2] ++
        cascade (lastOr (normalOut 0 3600 0 [1, 2]) ⟨0 - 3600, 0, 0⟩) 0 3600
          (buildRun (0 + ((([1, 2] : List Int).length : Int) + 1) * 3600) 3600 [3])) ∧
     shiftedAveraged (lastOr (normalOut 0 3600 0 [1, 2]) ⟨0 - 3600, 0, 0⟩) 0 3600
       (buildRun (0 + ((([1, 2] : List Int).length : Int) + 1) * 3600) 3600 [3])
       (cascade (lastOr (normalOut 0 3600 0 [1, 2]) ⟨0 - 3600, 0, 0⟩) 0 3600
         (buildRun (0 + ((([1, 2] : List Int).length : Int) + 1) * 3600) 3600 [3]))) :=
  ⟨by decide, by decide,
    parse_espi_data_cascade_after_gap 0 0 3600 [1, 2] [3] (by decide) (by decide)⟩
